import Mathlib

/-!
Shallow embedding of the redis-job-backend job-queue engine.

The shared Redis store is modelled as `Store`:
  * `jobs`       — the job hash records (`HGETALL jobId`), `none` when the key is absent;
  * `deps`       — the set at key `jobId:dependencies` (kept as a duplicate-free list;
                   `SADD` only inserts absent members);
  * `dependents` — the set at key `jobId:dependents`;
  * `lists`      — every Redis list (the two priority lanes and `dead_letter_queue`).

List orientation: the head of the Lean list is the RIGHT end of the Redis list,
the end `BRPOP` pops from; `LPUSH` inserts at the Redis left end, which is the
tail of the Lean list.  Thus `lpush` appends and `brpop` removes the head, the
FIFO reading used throughout.

A Redis hash write (`HSET`/`HINCRBY`) on an absent key creates the hash; the
missing remaining fields are modelled by the `JobRecord` defaults.
-/

namespace JobQueue

inductive Status where
  | PENDING
  | PROCESSING
  | COMPLETED
  | FAILED
  | CANCELLED
deriving DecidableEq, Repr

structure JobRecord where
  status : Status := .PENDING
  jobType : String := ""
  data : String := ""
  retries : Nat := 0
  progress : Nat := 0
  created_at : Nat := 0
  result : Option String := none
deriving DecidableEq, Repr

structure Store where
  jobs : String → Option JobRecord
  deps : String → List String
  dependents : String → List String
  lists : String → List String

def emptyStore : Store :=
  { jobs := fun _ => none
    deps := fun _ => []
    dependents := fun _ => []
    lists := fun _ => [] }

/-- Record of job `k` in `s`, with hash-creation defaults when absent. -/
def recordOf (s : Store) (k : String) : JobRecord :=
  (s.jobs k).getD {}

def statusOf (s : Store) (k : String) : Option Status :=
  (s.jobs k).map (·.status)

def retriesOf (s : Store) (k : String) : Nat :=
  (recordOf s k).retries

def progressOf (s : Store) (k : String) : Nat :=
  (recordOf s k).progress

def resultOf (s : Store) (k : String) : Option String :=
  (recordOf s k).result

/-- `HSET k status st` (worker.js:48,58,82; workerController cancel). -/
def hsetStatus (s : Store) (k : String) (st : Status) : Store :=
  { s with jobs := fun j => if j = k then some { recordOf s k with status := st } else s.jobs j }

/-- `HSET k progress p` (worker.js updateJobProgress). -/
def hsetProgress (s : Store) (k : String) (p : Nat) : Store :=
  { s with jobs := fun j => if j = k then some { recordOf s k with progress := p } else s.jobs j }

/-- `HSET k {status, result}` (worker.js:66-69). -/
def hsetStatusResult (s : Store) (k : String) (st : Status) (r : String) : Store :=
  { s with jobs := fun j =>
      if j = k then some { recordOf s k with status := st, result := some r } else s.jobs j }

/-- `HINCRBY k retries 1` (worker.js:79), returning the new value as the call does. -/
def hincrbyRetries (s : Store) (k : String) : Store × Nat :=
  let r := (recordOf s k).retries + 1
  ({ s with jobs := fun j => if j = k then some { recordOf s k with retries := r } else s.jobs j },
   r)

/-- `LPUSH q id`: insert at the Redis left end = our tail. -/
def lpush (s : Store) (q id : String) : Store :=
  { s with lists := fun l => if l = q then s.lists q ++ [id] else s.lists l }

/-- `SADD jid:dependencies dep`. -/
def saddDep (s : Store) (k dep : String) : Store :=
  { s with deps := fun j =>
      if j = k then (if dep ∈ s.deps k then s.deps k else s.deps k ++ [dep]) else s.deps j }

/-- `SADD jid:dependents dep`. -/
def saddDependent (s : Store) (k dep : String) : Store :=
  { s with dependents := fun j =>
      if j = k then (if dep ∈ s.dependents k then s.dependents k else s.dependents k ++ [dep])
      else s.dependents j }

/-- `SREM j:dependencies k` (worker.js:74). -/
def sremDep (s : Store) (j k : String) : Store :=
  { s with deps := fun x => if x = j then (s.deps j).filter (fun d => d ≠ k) else s.deps x }

/-! ### Queue dispatcher (workerController.js enqueueJob) -/

def laneFor (priority : String) : String :=
  if priority = "high" then "high_priority_jobs" else "normal_jobs"

/-- State right after `await redis.lpush(queueName, jobId)` (workerController.js:54),
the first store mutation `enqueueJob` performs. -/
def enqueueAfterPush (s : Store) (jobId priority : String) : Store :=
  lpush s (laneFor priority) jobId

/-- `await redis.hmset(jobId, {status: PENDING, type, data, retries: 0, progress: 0,
created_at})` (workerController.js:55-62); a field not listed (result) is preserved. -/
def hmsetNewJob (s : Store) (k ty data : String) (now : Nat) : Store :=
  { s with jobs := fun j =>
      if j = k then
        some { status := .PENDING, jobType := ty, data := data, retries := 0, progress := 0,
               created_at := now, result := (recordOf s k).result }
      else s.jobs j }

/-- The `for (const dependency of dependencies)` loop (workerController.js:64-67). -/
def addDependencyEdges (s : Store) (k : String) : List String → Store
  | [] => s
  | d :: rest => addDependencyEdges (saddDependent (saddDep s k d) d k) k rest

/-- `enqueueJob` (workerController.js:42-77): lane push, then record write, then
dependency edges; responds 201 on its only non-exception path. -/
def enqueueJob (s : Store) (jobId ty data priority : String) (dependencies : List String)
    (now : Nat) : Store × Nat :=
  (addDependencyEdges (hmsetNewJob (enqueueAfterPush s jobId priority) jobId ty data now)
    jobId dependencies, 201)

/-! ### Cancel and delete (workerController.js) -/

/-- `cancelJob` (workerController.js:196-225): 404 on unknown id, 200 + status
CANCELLED from PENDING/PROCESSING, 400 otherwise with no mutation. -/
def cancelJob (s : Store) (jobId : String) : Store × Nat :=
  match s.jobs jobId with
  | none => (s, 404)
  | some job =>
    if job.status = .PENDING ∨ job.status = .PROCESSING then
      (hsetStatus s jobId .CANCELLED, 200)
    else (s, 400)

/-- `deleteJob` (workerController.js:227-256): existence check, then `DEL` of the
record, the `:dependencies` set and the `:dependents` set, nothing else. -/
def deleteJob (s : Store) (jobId : String) : Store × Nat :=
  if (s.jobs jobId).isSome then
    ({ jobs := fun j => if j = jobId then none else s.jobs j
       deps := fun j => if j = jobId then [] else s.deps j
       dependents := fun j => if j = jobId then [] else s.dependents j
       lists := s.lists }, 200)
  else (s, 404)

/-! ### Worker loop (worker.js processJob)

The simulated execution is deterministic except for the environment: an external
cancel request may land between iterations, and any awaited call inside the
`try` block may throw.  These are the parameters `cancelAt` (the iteration just
before whose cancellation check an external `HSET status CANCELLED` arrives) and
`failAt` (the iteration at which the body throws, jumping to the `catch`). -/

inductive LoopResult where
  | completed
  | cancelled
  | errored
deriving DecidableEq, Repr

/-- An external cancellation request writing the store (workerController cancel path). -/
def extCancel (s : Store) (k : String) : Store :=
  hsetStatus s k .CANCELLED

/-- The `for (let progress = 0; progress <= 100; progress += 10)` loop
(worker.js:54-64): iteration `i` first re-checks `isJobCancelled` (after any
external cancel write), writing `status CANCELLED` and stopping if observed,
and only then writes the progress value `10*i`.  `fuel` counts the remaining
iterations; the full loop runs `loopFrom s k 0 11`. -/
def loopFrom (s : Store) (k : String) (i : Nat) :
    Nat → Option Nat → Option Nat → Store × LoopResult
  | 0, _, _ => (s, .completed)
  | fuel + 1, cancelAt, failAt =>
    if failAt = some i then (s, .errored)
    else
      let s1 := if cancelAt = some i then extCancel s k else s
      if statusOf s1 k = some .CANCELLED then (hsetStatus s1 k .CANCELLED, .cancelled)
      else loopFrom (hsetProgress s1 k (10 * i)) k (i + 1) fuel cancelAt failAt

/-- The success payload `Success Result of Job ${jobKey} ` (worker.js:68). -/
def successResult (k : String) : String :=
  "Success Result of Job " ++ k ++ " "

/-- The `for (const dependent of dependents)` release fan-out (worker.js:72-76). -/
def sremDepMany (s : Store) (k : String) : List String → Store
  | [] => s
  | d :: rest => sremDepMany (sremDep s d k) k rest

/-- Completion epilogue (worker.js:66-76): status COMPLETED with result, then
remove this job from every dependent's depends-on set. -/
def completeJob (s : Store) (k : String) : Store :=
  let s1 := hsetStatusResult s k .COMPLETED (successResult k)
  sremDepMany s1 k (s1.dependents k)

/-- The `catch` handler (worker.js:77-89): increment retries; at 3 or more set
FAILED and push to the dead-letter queue, otherwise re-push to the lane. -/
def failHandler (s : Store) (k q : String) : Store :=
  let p := hincrbyRetries s k
  if p.2 ≥ 3 then lpush (hsetStatus p.1 k .FAILED) "dead_letter_queue" k
  else lpush p.1 q k

/-- Dispatch on how the progress loop ended (worker.js:66-89): completion
epilogue, cancel-stop, or the `catch` retry handler. -/
def afterLoop (s2 : Store) (r : LoopResult) (k q : String) : Store :=
  match r with
  | .completed => completeJob s2 k
  | .cancelled => s2
  | .errored => failHandler s2 k q

/-- The store right after `BRPOP` atomically removed the head of lane `q`,
leaving `rest`. -/
def popped (s : Store) (q : String) (rest : List String) : Store :=
  { s with lists := fun l => if l = q then rest else s.lists l }

/-- Body of one worker iteration once `BRPOP` handed over `jobKey` and left the
store in `s0` (worker.js:27-89): dependency check with tail re-append,
dequeue-time cancel check, PROCESSING, then the progress loop. -/
def handleDequeued (s0 : Store) (q jobKey : String) (cancelAt failAt : Option Nat) : Store :=
  if s0.deps jobKey ≠ [] then lpush s0 q jobKey
  else if statusOf s0 jobKey = some .CANCELLED then s0
  else
    let s1 := hsetStatus s0 jobKey .PROCESSING
    let p := loopFrom s1 jobKey 0 11 cancelAt failAt
    afterLoop p.1 p.2 jobKey q

/-- One worker iteration `processJob(queueName)` (worker.js:24-91): blocking pop
(`BRPOP` removes the head, atomically handing it to this worker), then the body. -/
def processJob (s : Store) (q : String) (cancelAt failAt : Option Nat) : Store :=
  match s.lists q with
  | [] => s
  | jobKey :: rest => handleDequeued (popped s q rest) q jobKey cancelAt failAt

/-! ### Autoscaler (monitorQueue) -/

def SCALE_UP_THRESHOLD : Nat := 50
def SCALE_DOWN_THRESHOLD : Nat := 10
def MIN_WORKERS : Nat := 1
def MAX_WORKERS : Nat := 10

inductive ScaleAction where
  | scaleUp (n : Nat)
  | scaleDown (n : Nat)
  | noAction
deriving DecidableEq, Repr

/-- One `monitorQueue` cycle: depth = high lane length + normal lane length,
`active` = current worker instances.  Scale up by
`min(total − SCALE_UP_THRESHOLD, MAX_WORKERS − active)` when `total >
SCALE_UP_THRESHOLD` and `active < MAX_WORKERS`; scale down by
`min(active − MIN_WORKERS, SCALE_DOWN_THRESHOLD − total)` when `total <
SCALE_DOWN_THRESHOLD` and `active > MIN_WORKERS`; otherwise do nothing. -/
def monitorQueue (high normal active : Nat) : ScaleAction :=
  let total := high + normal
  if total > SCALE_UP_THRESHOLD ∧ active < MAX_WORKERS then
    .scaleUp (min (total - SCALE_UP_THRESHOLD) (MAX_WORKERS - active))
  else if total < SCALE_DOWN_THRESHOLD ∧ active > MIN_WORKERS then
    .scaleDown (min (active - MIN_WORKERS) (SCALE_DOWN_THRESHOLD - total))
  else .noAction

/-! ### The system's operations, for trace-level facts -/

inductive SysOp where
  | enqueue (jobId ty data priority : String) (dependencies : List String) (now : Nat)
  | work (q : String) (cancelAt failAt : Option Nat)
  | cancel (jobId : String)
  | del (jobId : String)
deriving DecidableEq, Repr

def applyOp (s : Store) : SysOp → Store
  | .enqueue jobId ty data priority dependencies now =>
      (enqueueJob s jobId ty data priority dependencies now).1
  | .work q cancelAt failAt => processJob s q cancelAt failAt
  | .cancel jobId => (cancelJob s jobId).1
  | .del jobId => (deleteJob s jobId).1

/-! ### Concrete stores for evaluation -/

/-- A store holding one pending job `job:a` in the normal lane, blocked on `job:b`. -/
def exBlocked : Store := (enqueueJob emptyStore "job:a" "t" "d" "normal" ["job:b"] 0).1

/-- A store holding one pending dependency-free job `job:a` in the normal lane. -/
def exPending : Store := (enqueueJob emptyStore "job:a" "t" "d" "normal" [] 0).1

/-- A store holding `job:b` and then `job:a` (which depends on `job:b`) in the
normal lane, so `job:b` has `job:a` as dependent. -/
def exChain : Store :=
  (enqueueJob (enqueueJob emptyStore "job:b" "t" "d" "normal" [] 0).1
    "job:a" "t" "d" "normal" ["job:b"] 1).1

/-! ### Preservation lemmas for the store primitives -/

lemma statusOf_hsetStatus (s : Store) (k : String) (st : Status) (j : String) :
    statusOf (hsetStatus s k st) j = if j = k then some st else statusOf s j := by
  simp only [statusOf, hsetStatus]
  by_cases h : j = k <;> simp [h]

lemma retriesOf_hsetStatus (s : Store) (k : String) (st : Status) (j : String) :
    retriesOf (hsetStatus s k st) j = retriesOf s j := by
  simp only [retriesOf, recordOf, hsetStatus]
  by_cases h : j = k <;> simp [h]

lemma progressOf_hsetStatus (s : Store) (k : String) (st : Status) (j : String) :
    progressOf (hsetStatus s k st) j = progressOf s j := by
  simp only [progressOf, recordOf, hsetStatus]
  by_cases h : j = k <;> simp [h]

lemma resultOf_hsetStatus (s : Store) (k : String) (st : Status) (j : String) :
    resultOf (hsetStatus s k st) j = resultOf s j := by
  simp only [resultOf, recordOf, hsetStatus]
  by_cases h : j = k <;> simp [h]

lemma jobs_hsetStatus_other (s : Store) (k : String) (st : Status) (j : String) (h : j ≠ k) :
    (hsetStatus s k st).jobs j = s.jobs j := by
  simp [hsetStatus, h]

lemma deps_hsetStatus (s : Store) (k : String) (st : Status) :
    (hsetStatus s k st).deps = s.deps := rfl

lemma dependents_hsetStatus (s : Store) (k : String) (st : Status) :
    (hsetStatus s k st).dependents = s.dependents := rfl

lemma lists_hsetStatus (s : Store) (k : String) (st : Status) :
    (hsetStatus s k st).lists = s.lists := rfl

lemma statusOf_hsetProgress (s : Store) (k : String) (p : Nat) (j : String) (st : Status)
    (h : statusOf s k = some st) :
    statusOf (hsetProgress s k p) j = statusOf s j := by
  simp only [statusOf, hsetProgress, recordOf] at h ⊢
  by_cases hj : j = k
  · subst hj
    cases hje : s.jobs j
    · simp [hje] at h
    · simp [hje]
  · simp [hj]

lemma retriesOf_hsetProgress (s : Store) (k : String) (p : Nat) (j : String) :
    retriesOf (hsetProgress s k p) j = retriesOf s j := by
  simp only [retriesOf, recordOf, hsetProgress]
  by_cases h : j = k <;> simp [h]

lemma resultOf_hsetProgress (s : Store) (k : String) (p : Nat) (j : String) :
    resultOf (hsetProgress s k p) j = resultOf s j := by
  simp only [resultOf, recordOf, hsetProgress]
  by_cases h : j = k <;> simp [h]

lemma progressOf_hsetProgress_self (s : Store) (k : String) (p : Nat) :
    progressOf (hsetProgress s k p) k = p := by
  simp [progressOf, recordOf, hsetProgress]

lemma jobs_hsetProgress_other (s : Store) (k : String) (p : Nat) (j : String) (h : j ≠ k) :
    (hsetProgress s k p).jobs j = s.jobs j := by
  simp [hsetProgress, h]

lemma deps_hsetProgress (s : Store) (k : String) (p : Nat) :
    (hsetProgress s k p).deps = s.deps := rfl

lemma dependents_hsetProgress (s : Store) (k : String) (p : Nat) :
    (hsetProgress s k p).dependents = s.dependents := rfl

lemma lists_hsetProgress (s : Store) (k : String) (p : Nat) :
    (hsetProgress s k p).lists = s.lists := rfl

lemma lists_lpush (s : Store) (q id l : String) :
    (lpush s q id).lists l = if l = q then s.lists q ++ [id] else s.lists l := rfl

lemma jobs_lpush (s : Store) (q id : String) : (lpush s q id).jobs = s.jobs := rfl

lemma deps_lpush (s : Store) (q id : String) : (lpush s q id).deps = s.deps := rfl

lemma dependents_lpush (s : Store) (q id : String) : (lpush s q id).dependents = s.dependents := rfl

lemma statusOf_hsetStatusResult (s : Store) (k : String) (st : Status) (r : String)
    (j : String) :
    statusOf (hsetStatusResult s k st r) j = if j = k then some st else statusOf s j := by
  simp only [statusOf, hsetStatusResult]
  by_cases h : j = k <;> simp [h]

lemma retriesOf_hsetStatusResult (s : Store) (k : String) (st : Status) (r : String)
    (j : String) :
    retriesOf (hsetStatusResult s k st r) j = retriesOf s j := by
  simp only [retriesOf, recordOf, hsetStatusResult]
  by_cases h : j = k <;> simp [h]

lemma resultOf_hsetStatusResult_self (s : Store) (k : String) (st : Status) (r : String) :
    resultOf (hsetStatusResult s k st r) k = some r := by
  simp [resultOf, recordOf, hsetStatusResult]

lemma jobs_hsetStatusResult_other (s : Store) (k : String) (st : Status) (r : String)
    (j : String) (h : j ≠ k) :
    (hsetStatusResult s k st r).jobs j = s.jobs j := by
  simp [hsetStatusResult, h]

lemma deps_hsetStatusResult (s : Store) (k : String) (st : Status) (r : String) :
    (hsetStatusResult s k st r).deps = s.deps := rfl

lemma dependents_hsetStatusResult (s : Store) (k : String) (st : Status) (r : String) :
    (hsetStatusResult s k st r).dependents = s.dependents := rfl

lemma lists_hsetStatusResult (s : Store) (k : String) (st : Status) (r : String) :
    (hsetStatusResult s k st r).lists = s.lists := rfl

lemma retriesOf_hincrbyRetries (s : Store) (k j : String) :
    retriesOf (hincrbyRetries s k).1 j =
      if j = k then retriesOf s k + 1 else retriesOf s j := by
  simp only [retriesOf, recordOf, hincrbyRetries]
  by_cases h : j = k <;> simp [h]

lemma snd_hincrbyRetries (s : Store) (k : String) :
    (hincrbyRetries s k).2 = retriesOf s k + 1 := rfl

lemma statusOf_hincrbyRetries (s : Store) (k j : String) (st : Status)
    (h : statusOf s k = some st) :
    statusOf (hincrbyRetries s k).1 j = statusOf s j := by
  simp only [statusOf, hincrbyRetries, recordOf] at h ⊢
  by_cases hj : j = k
  · subst hj
    cases hje : s.jobs j
    · simp [hje] at h
    · simp [hje]
  · simp [hj]

lemma jobs_hincrbyRetries_other (s : Store) (k j : String) (h : j ≠ k) :
    (hincrbyRetries s k).1.jobs j = s.jobs j := by
  simp [hincrbyRetries, h]

lemma deps_hincrbyRetries (s : Store) (k : String) :
    (hincrbyRetries s k).1.deps = s.deps := rfl

lemma dependents_hincrbyRetries (s : Store) (k : String) :
    (hincrbyRetries s k).1.dependents = s.dependents := rfl

lemma lists_hincrbyRetries (s : Store) (k : String) :
    (hincrbyRetries s k).1.lists = s.lists := rfl

/-! ### Set primitives -/

lemma deps_sremDep (s : Store) (j k x : String) :
    (sremDep s j k).deps x =
      if x = j then (s.deps j).filter (fun d => d ≠ k) else s.deps x := rfl

lemma jobs_sremDep (s : Store) (j k : String) : (sremDep s j k).jobs = s.jobs := rfl

lemma dependents_sremDep (s : Store) (j k : String) :
    (sremDep s j k).dependents = s.dependents := rfl

lemma lists_sremDep (s : Store) (j k : String) : (sremDep s j k).lists = s.lists := rfl

lemma sremDepMany_deps (k : String) :
    ∀ (l : List String) (s : Store) (j : String),
      (sremDepMany s k l).deps j =
        if j ∈ l then (s.deps j).filter (fun d => d ≠ k) else s.deps j := by
  intro l
  induction l with
  | nil => intro s j; simp [sremDepMany]
  | cons d rest ih =>
    intro s j
    rw [sremDepMany, ih]
    by_cases hr : j ∈ rest
    · by_cases hd : j = d
      · subst hd
        simp [hr, deps_sremDep, List.filter_filter]
      · simp [hr, deps_sremDep, hd]
    · by_cases hd : j = d
      · subst hd
        simp [hr, deps_sremDep]
      · simp [hr, deps_sremDep, hd, List.mem_cons]

lemma sremDepMany_jobs (k : String) :
    ∀ (l : List String) (s : Store), (sremDepMany s k l).jobs = s.jobs := by
  intro l
  induction l with
  | nil => intro s; rfl
  | cons d rest ih => intro s; rw [sremDepMany, ih]; rfl

lemma sremDepMany_dependents (k : String) :
    ∀ (l : List String) (s : Store), (sremDepMany s k l).dependents = s.dependents := by
  intro l
  induction l with
  | nil => intro s; rfl
  | cons d rest ih => intro s; rw [sremDepMany, ih]; rfl

lemma sremDepMany_lists (k : String) :
    ∀ (l : List String) (s : Store), (sremDepMany s k l).lists = s.lists := by
  intro l
  induction l with
  | nil => intro s; rfl
  | cons d rest ih => intro s; rw [sremDepMany, ih]; rfl

/-! ### Dependency-edge registration -/

lemma addDependencyEdges_jobs (k : String) :
    ∀ (l : List String) (s : Store), (addDependencyEdges s k l).jobs = s.jobs := by
  intro l
  induction l with
  | nil => intro s; rfl
  | cons d rest ih => intro s; rw [addDependencyEdges, ih]; rfl

lemma addDependencyEdges_lists (k : String) :
    ∀ (l : List String) (s : Store), (addDependencyEdges s k l).lists = s.lists := by
  intro l
  induction l with
  | nil => intro s; rfl
  | cons d rest ih => intro s; rw [addDependencyEdges, ih]; rfl

lemma addDependencyEdges_deps_other (k : String) :
    ∀ (l : List String) (s : Store) (j : String), j ≠ k →
      (addDependencyEdges s k l).deps j = s.deps j := by
  intro l
  induction l with
  | nil => intro s j _; rfl
  | cons d rest ih =>
    intro s j hj
    rw [addDependencyEdges, ih _ j hj]
    simp [saddDependent, saddDep, hj]

lemma addDependencyEdges_deps_mem (k : String) :
    ∀ (l : List String) (s : Store) (x : String),
      (x ∈ (addDependencyEdges s k l).deps k ↔ x ∈ s.deps k ∨ x ∈ l) := by
  intro l
  induction l with
  | nil => intro s x; simp [addDependencyEdges]
  | cons d rest ih =>
    intro s x
    rw [addDependencyEdges, ih]
    have hdep : (saddDependent (saddDep s k d) d k).deps k =
        if d ∈ s.deps k then s.deps k else s.deps k ++ [d] := by
      simp [saddDependent, saddDep]
    rw [hdep]
    by_cases hd : d ∈ s.deps k
    · simp only [if_pos hd, List.mem_cons]
      constructor
      · rintro (hx | hx)
        · exact Or.inl hx
        · exact Or.inr (Or.inr hx)
      · rintro (hx | hx | hx)
        · exact Or.inl hx
        · exact Or.inl (hx ▸ hd)
        · exact Or.inr hx
    · simp only [if_neg hd, List.mem_append, List.mem_singleton, List.mem_cons]
      tauto

lemma addDependencyEdges_deps_nodup (k : String) :
    ∀ (l : List String) (s : Store), (s.deps k).Nodup →
      ((addDependencyEdges s k l).deps k).Nodup := by
  intro l
  induction l with
  | nil => intro s h; exact h
  | cons d rest ih =>
    intro s h
    rw [addDependencyEdges]
    apply ih
    have hdep : (saddDependent (saddDep s k d) d k).deps k =
        if d ∈ s.deps k then s.deps k else s.deps k ++ [d] := by
      simp [saddDependent, saddDep]
    rw [hdep]
    by_cases hd : d ∈ s.deps k
    · simpa [hd] using h
    · simp only [if_neg hd]
      simp [List.nodup_append, h, hd]

/-! ### Completion epilogue -/

lemma statusOf_completeJob (s : Store) (k j : String) :
    statusOf (completeJob s k) j = if j = k then some .COMPLETED else statusOf s j := by
  simp only [completeJob, statusOf]
  rw [sremDepMany_jobs]
  have h := statusOf_hsetStatusResult s k .COMPLETED (successResult k) j
  simpa [statusOf] using h

lemma resultOf_completeJob_self (s : Store) (k : String) :
    resultOf (completeJob s k) k = some (successResult k) := by
  simp only [completeJob, resultOf, recordOf]
  rw [sremDepMany_jobs]
  have h := resultOf_hsetStatusResult_self s k .COMPLETED (successResult k)
  simpa [resultOf, recordOf] using h

lemma retriesOf_completeJob (s : Store) (k j : String) :
    retriesOf (completeJob s k) j = retriesOf s j := by
  simp only [completeJob, retriesOf, recordOf]
  rw [sremDepMany_jobs]
  have h := retriesOf_hsetStatusResult s k .COMPLETED (successResult k) j
  simpa [retriesOf, recordOf] using h

lemma deps_completeJob (s : Store) (k j : String) :
    (completeJob s k).deps j =
      if j ∈ s.dependents k then (s.deps j).filter (fun d => d ≠ k) else s.deps j := by
  simp only [completeJob]
  rw [sremDepMany_deps]
  rfl

lemma dependents_completeJob (s : Store) (k : String) :
    (completeJob s k).dependents = s.dependents := by
  simp only [completeJob]
  rw [sremDepMany_dependents]
  rfl

lemma lists_completeJob (s : Store) (k : String) :
    (completeJob s k).lists = s.lists := by
  simp only [completeJob]
  rw [sremDepMany_lists]
  rfl

lemma jobs_completeJob_other (s : Store) (k j : String) (h : j ≠ k) :
    (completeJob s k).jobs j = s.jobs j := by
  simp only [completeJob]
  rw [sremDepMany_jobs]
  exact jobs_hsetStatusResult_other s k _ _ j h

/-! ### The retry handler -/

lemma retriesOf_failHandler (s : Store) (k q j : String) :
    retriesOf (failHandler s k q) j =
      if j = k then retriesOf s k + 1 else retriesOf s j := by
  simp only [failHandler, snd_hincrbyRetries]
  by_cases h3 : retriesOf s k + 1 ≥ 3
  · rw [if_pos h3]
    show retriesOf (lpush _ _ _) j = _
    rw [show ∀ (t : Store) (a b : String), retriesOf (lpush t a b) j = retriesOf t j
        from fun _ _ _ => rfl]
    rw [retriesOf_hsetStatus, retriesOf_hincrbyRetries]
  · rw [if_neg h3]
    show retriesOf (lpush _ _ _) j = _
    rw [show ∀ (t : Store) (a b : String), retriesOf (lpush t a b) j = retriesOf t j
        from fun _ _ _ => rfl]
    rw [retriesOf_hincrbyRetries]

lemma statusOf_failHandler_self (s : Store) (k q : String) (st : Status)
    (h : statusOf s k = some st) :
    statusOf (failHandler s k q) k =
      some (if retriesOf s k + 1 ≥ 3 then .FAILED else st) := by
  simp only [failHandler, snd_hincrbyRetries]
  by_cases h3 : retriesOf s k + 1 ≥ 3
  · rw [if_pos h3, if_pos h3]
    show statusOf (lpush _ _ _) k = _
    rw [show ∀ (t : Store) (a b : String), statusOf (lpush t a b) k = statusOf t k
        from fun _ _ _ => rfl]
    rw [statusOf_hsetStatus, if_pos rfl]
  · rw [if_neg h3, if_neg h3]
    show statusOf (lpush _ _ _) k = _
    rw [show ∀ (t : Store) (a b : String), statusOf (lpush t a b) k = statusOf t k
        from fun _ _ _ => rfl]
    rw [statusOf_hincrbyRetries s k k st h, h]

lemma statusOf_failHandler_other (s : Store) (k q j : String) (hj : j ≠ k) :
    statusOf (failHandler s k q) j = statusOf s j := by
  simp only [failHandler, snd_hincrbyRetries, statusOf]
  by_cases h3 : retriesOf s k + 1 ≥ 3
  · rw [if_pos h3]
    show ((lpush _ _ _).jobs j).map _ = _
    rw [jobs_lpush, jobs_hsetStatus_other _ _ _ _ hj, jobs_hincrbyRetries_other _ _ _ hj]
  · rw [if_neg h3]
    show ((lpush _ _ _).jobs j).map _ = _
    rw [jobs_lpush, jobs_hincrbyRetries_other _ _ _ hj]

lemma deps_failHandler (s : Store) (k q : String) :
    (failHandler s k q).deps = s.deps := by
  simp only [failHandler, snd_hincrbyRetries]
  by_cases h3 : retriesOf s k + 1 ≥ 3
  · rw [if_pos h3]; rfl
  · rw [if_neg h3]; rfl

lemma dependents_failHandler (s : Store) (k q : String) :
    (failHandler s k q).dependents = s.dependents := by
  simp only [failHandler, snd_hincrbyRetries]
  by_cases h3 : retriesOf s k + 1 ≥ 3
  · rw [if_pos h3]; rfl
  · rw [if_neg h3]; rfl

lemma lists_failHandler_ge (s : Store) (k q : String) (h3 : retriesOf s k + 1 ≥ 3)
    (l : String) :
    (failHandler s k q).lists l =
      if l = "dead_letter_queue" then s.lists "dead_letter_queue" ++ [k] else s.lists l := by
  simp only [failHandler, snd_hincrbyRetries]
  rw [if_pos h3, lists_lpush]
  rfl

lemma lists_failHandler_lt (s : Store) (k q : String) (h3 : retriesOf s k + 1 < 3)
    (l : String) :
    (failHandler s k q).lists l = if l = q then s.lists q ++ [k] else s.lists l := by
  simp only [failHandler, snd_hincrbyRetries]
  rw [if_neg (by omega : ¬ retriesOf s k + 1 ≥ 3), lists_lpush]
  rfl

/-! ### The progress loop -/

lemma loopFrom_zero (s : Store) (k : String) (i : Nat) (ca fa : Option Nat) :
    loopFrom s k i 0 ca fa = (s, .completed) := rfl

lemma loopFrom_succ (s : Store) (k : String) (i fuel : Nat) (ca fa : Option Nat) :
    loopFrom s k i (fuel + 1) ca fa =
      if fa = some i then (s, .errored)
      else
        let s1 := if ca = some i then extCancel s k else s
        if statusOf s1 k = some .CANCELLED then (hsetStatus s1 k .CANCELLED, .cancelled)
        else loopFrom (hsetProgress s1 k (10 * i)) k (i + 1) fuel ca fa := rfl

lemma loopFrom_run (k : String) :
    ∀ (fuel : Nat) (s : Store) (i : Nat) (st : Status),
      statusOf s k = some st → st ≠ .CANCELLED →
      (loopFrom s k i fuel none none).2 = .completed ∧
      statusOf (loopFrom s k i fuel none none).1 k = some st ∧
      (loopFrom s k i fuel none none).1.deps = s.deps ∧
      (loopFrom s k i fuel none none).1.dependents = s.dependents ∧
      (loopFrom s k i fuel none none).1.lists = s.lists ∧
      (∀ j, retriesOf (loopFrom s k i fuel none none).1 j = retriesOf s j) ∧
      (∀ j, resultOf (loopFrom s k i fuel none none).1 j = resultOf s j) ∧
      (∀ j, j ≠ k → (loopFrom s k i fuel none none).1.jobs j = s.jobs j) := by
  intro fuel
  induction fuel with
  | zero =>
    intro s i st h hst
    rw [loopFrom_zero]
    exact ⟨rfl, h, rfl, rfl, rfl, fun _ => rfl, fun _ => rfl, fun _ _ => rfl⟩
  | succ fuel ih =>
    intro s i st h hst
    have hne : ¬ statusOf s k = some Status.CANCELLED := by
      rw [h]
      exact fun hc => hst (Option.some.inj hc)
    rw [loopFrom_succ]
    simp only [if_neg (by simp : ¬ (none : Option Nat) = some i)]
    rw [if_neg hne]
    have hset : statusOf (hsetProgress s k (10 * i)) k = some st := by
      rw [statusOf_hsetProgress s k _ k st h]; exact h
    obtain ⟨h1, h2, h3, h4, h5, h6, h7, h8⟩ :=
      ih (hsetProgress s k (10 * i)) (i + 1) st hset hst
    refine ⟨h1, h2, ?_, ?_, ?_, ?_, ?_, ?_⟩
    · rw [h3]; rfl
    · rw [h4]; rfl
    · rw [h5]; rfl
    · intro j; rw [h6 j, retriesOf_hsetProgress]
    · intro j; rw [h7 j, resultOf_hsetProgress]
    · intro j hj; rw [h8 j hj, jobs_hsetProgress_other _ _ _ _ hj]

lemma loopFrom_cancel (k : String) :
    ∀ (fuel : Nat) (s : Store) (i c : Nat) (st : Status),
      statusOf s k = some st → st ≠ .CANCELLED → i ≤ c → c < i + fuel →
      (loopFrom s k i fuel (some c) none).2 = .cancelled ∧
      statusOf (loopFrom s k i fuel (some c) none).1 k = some .CANCELLED ∧
      (loopFrom s k i fuel (some c) none).1.deps = s.deps ∧
      (loopFrom s k i fuel (some c) none).1.dependents = s.dependents ∧
      (loopFrom s k i fuel (some c) none).1.lists = s.lists ∧
      (∀ j, retriesOf (loopFrom s k i fuel (some c) none).1 j = retriesOf s j) ∧
      (resultOf (loopFrom s k i fuel (some c) none).1 k = resultOf s k) ∧
      (∀ j, j ≠ k → (loopFrom s k i fuel (some c) none).1.jobs j = s.jobs j) ∧
      (i = c → progressOf (loopFrom s k i fuel (some c) none).1 k = progressOf s k) ∧
      (i < c → progressOf (loopFrom s k i fuel (some c) none).1 k = 10 * (c - 1)) := by
  intro fuel
  induction fuel with
  | zero =>
    intro s i c st _ _ hic hlt
    omega
  | succ fuel ih =>
    intro s i c st h hst hic hlt
    rw [loopFrom_succ]
    simp only [if_neg (by simp : ¬ (none : Option Nat) = some i)]
    by_cases hie : i = c
    · subst hie
      rw [show (if (some i : Option Nat) = some i then extCancel s k else s) = extCancel s k
          from if_pos rfl]
      have hcanc : statusOf (extCancel s k) k = some Status.CANCELLED := by
        rw [extCancel, statusOf_hsetStatus, if_pos rfl]
      rw [if_pos hcanc]
      refine ⟨rfl, ?_, rfl, rfl, rfl, ?_, ?_, ?_, ?_, ?_⟩
      · rw [statusOf_hsetStatus, if_pos rfl]
      · intro j
        show retriesOf (hsetStatus (extCancel s k) k _) j = _
        rw [retriesOf_hsetStatus, extCancel, retriesOf_hsetStatus]
      · show resultOf (hsetStatus (extCancel s k) k _) k = _
        rw [resultOf_hsetStatus, extCancel, resultOf_hsetStatus]
      · intro j hj
        show (hsetStatus (extCancel s k) k _).jobs j = _
        rw [jobs_hsetStatus_other _ _ _ _ hj, extCancel, jobs_hsetStatus_other _ _ _ _ hj]
      · intro _
        show progressOf (hsetStatus (extCancel s k) k _) k = _
        rw [progressOf_hsetStatus, extCancel, progressOf_hsetStatus]
      · intro hlt'
        omega
    · have hlt2 : i < c := lt_of_le_of_ne hic hie
      rw [show (if (some c : Option Nat) = some i then extCancel s k else s) = s
          from if_neg (fun hEq => hie (Option.some.inj hEq).symm)]
      have hne : ¬ statusOf s k = some Status.CANCELLED := by
        rw [h]
        exact fun hc => hst (Option.some.inj hc)
      rw [if_neg hne]
      have hset : statusOf (hsetProgress s k (10 * i)) k = some st := by
        rw [statusOf_hsetProgress s k _ k st h]; exact h
      obtain ⟨h1, h2, h3, h4, h5, h6, h7, h8, h9, h10⟩ :=
        ih (hsetProgress s k (10 * i)) (i + 1) c st hset hst (by omega) (by omega)
      refine ⟨h1, h2, ?_, ?_, ?_, ?_, ?_, ?_, ?_, ?_⟩
      · rw [h3]; rfl
      · rw [h4]; rfl
      · rw [h5]; rfl
      · intro j; rw [h6 j, retriesOf_hsetProgress]
      · rw [h7, resultOf_hsetProgress]
      · intro j hj; rw [h8 j hj, jobs_hsetProgress_other _ _ _ _ hj]
      · intro heq; exact absurd heq hie
      · intro _
        by_cases hsucc : i + 1 = c
        · rw [h9 hsucc, progressOf_hsetProgress_self]
          omega
        · exact h10 (by omega)

lemma loopFrom_fail (k : String) :
    ∀ (fuel : Nat) (s : Store) (i f : Nat) (st : Status),
      statusOf s k = some st → st ≠ .CANCELLED → i ≤ f → f < i + fuel →
      (loopFrom s k i fuel none (some f)).2 = .errored ∧
      statusOf (loopFrom s k i fuel none (some f)).1 k = some st ∧
      (loopFrom s k i fuel none (some f)).1.deps = s.deps ∧
      (loopFrom s k i fuel none (some f)).1.dependents = s.dependents ∧
      (loopFrom s k i fuel none (some f)).1.lists = s.lists ∧
      (∀ j, retriesOf (loopFrom s k i fuel none (some f)).1 j = retriesOf s j) ∧
      (∀ j, j ≠ k → (loopFrom s k i fuel none (some f)).1.jobs j = s.jobs j) := by
  intro fuel
  induction fuel with
  | zero =>
    intro s i f st _ _ hif hlt
    omega
  | succ fuel ih =>
    intro s i f st h hst hif hlt
    rw [loopFrom_succ]
    by_cases hie : i = f
    · subst hie
      rw [if_pos (rfl : (some i : Option Nat) = some i)]
      exact ⟨rfl, h, rfl, rfl, rfl, fun _ => rfl, fun _ _ => rfl⟩
    · rw [if_neg (fun hEq : (some f : Option Nat) = some i => hie (Option.some.inj hEq).symm)]
      simp only [if_neg (by simp : ¬ (none : Option Nat) = some i)]
      have hne : ¬ statusOf s k = some Status.CANCELLED := by
        rw [h]
        exact fun hc => hst (Option.some.inj hc)
      rw [if_neg hne]
      have hset : statusOf (hsetProgress s k (10 * i)) k = some st := by
        rw [statusOf_hsetProgress s k _ k st h]; exact h
      obtain ⟨h1, h2, h3, h4, h5, h6, h7⟩ :=
        ih (hsetProgress s k (10 * i)) (i + 1) f st hset hst (by omega) (by omega)
      refine ⟨h1, h2, ?_, ?_, ?_, ?_, ?_⟩
      · rw [h3]; rfl
      · rw [h4]; rfl
      · rw [h5]; rfl
      · intro j; rw [h6 j, retriesOf_hsetProgress]
      · intro j hj; rw [h7 j hj, jobs_hsetProgress_other _ _ _ _ hj]

/-! ### Worker iteration: branch reductions -/

lemma processJob_nil (s : Store) (q : String) (ca fa : Option Nat) (h : s.lists q = []) :
    processJob s q ca fa = s := by
  unfold processJob
  rw [h]

lemma processJob_cons (s : Store) (q k : String) (rest : List String) (ca fa : Option Nat)
    (h : s.lists q = k :: rest) :
    processJob s q ca fa = handleDequeued (popped s q rest) q k ca fa := by
  unfold processJob
  rw [h]

lemma jobs_popped (s : Store) (q : String) (rest : List String) :
    (popped s q rest).jobs = s.jobs := rfl

lemma deps_popped (s : Store) (q : String) (rest : List String) :
    (popped s q rest).deps = s.deps := rfl

lemma dependents_popped (s : Store) (q : String) (rest : List String) :
    (popped s q rest).dependents = s.dependents := rfl

lemma lists_popped (s : Store) (q : String) (rest : List String) (l : String) :
    (popped s q rest).lists l = if l = q then rest else s.lists l := rfl

lemma statusOf_popped (s : Store) (q : String) (rest : List String) (j : String) :
    statusOf (popped s q rest) j = statusOf s j := rfl

lemma handleDequeued_dep (s0 : Store) (q k : String) (ca fa : Option Nat)
    (hdep : s0.deps k ≠ []) :
    handleDequeued s0 q k ca fa = lpush s0 q k := by
  simp only [handleDequeued]
  rw [if_pos hdep]

lemma handleDequeued_precancelled (s0 : Store) (q k : String) (ca fa : Option Nat)
    (hdep : s0.deps k = []) (hst : statusOf s0 k = some .CANCELLED) :
    handleDequeued s0 q k ca fa = s0 := by
  simp only [handleDequeued]
  rw [if_neg (fun hcon => hcon hdep), if_pos hst]

lemma handleDequeued_run (s0 : Store) (q k : String) (ca fa : Option Nat)
    (hdep : s0.deps k = []) (hst : ¬ statusOf s0 k = some .CANCELLED) :
    handleDequeued s0 q k ca fa =
      afterLoop (loopFrom (hsetStatus s0 k .PROCESSING) k 0 11 ca fa).1
        (loopFrom (hsetStatus s0 k .PROCESSING) k 0 11 ca fa).2 k q := by
  simp only [handleDequeued]
  rw [if_neg (fun hcon => hcon hdep), if_neg hst]

lemma afterLoop_completed (s2 : Store) (k q : String) :
    afterLoop s2 .completed k q = completeJob s2 k := rfl

lemma afterLoop_cancelled (s2 : Store) (k q : String) :
    afterLoop s2 .cancelled k q = s2 := rfl

lemma afterLoop_errored (s2 : Store) (k q : String) :
    afterLoop s2 .errored k q = failHandler s2 k q := rfl

/-! ### The retry counter across all operations -/

lemma retriesOf_loopFrom (k : String) :
    ∀ (fuel : Nat) (s : Store) (i : Nat) (ca fa : Option Nat) (j : String),
      retriesOf (loopFrom s k i fuel ca fa).1 j = retriesOf s j := by
  intro fuel
  induction fuel with
  | zero => intros; rfl
  | succ fuel ih =>
    intro s i ca fa j
    rw [loopFrom_succ]
    by_cases hf : fa = some i
    · rw [if_pos hf]
    · rw [if_neg hf]
      by_cases hc : ca = some i
      · rw [if_pos hc]
        by_cases hcanc : statusOf (extCancel s k) k = some Status.CANCELLED
        · rw [if_pos hcanc]
          show retriesOf (hsetStatus (extCancel s k) k _) j = _
          rw [retriesOf_hsetStatus, extCancel, retriesOf_hsetStatus]
        · rw [if_neg hcanc, ih, retriesOf_hsetProgress, extCancel, retriesOf_hsetStatus]
      · rw [if_neg hc]
        by_cases hcanc : statusOf s k = some Status.CANCELLED
        · rw [if_pos hcanc]
          show retriesOf (hsetStatus s k _) j = _
          rw [retriesOf_hsetStatus]
        · rw [if_neg hcanc, ih, retriesOf_hsetProgress]

lemma retriesOf_processJob_le (s : Store) (q : String) (ca fa : Option Nat) (j : String) :
    retriesOf s j ≤ retriesOf (processJob s q ca fa) j := by
  cases hq : s.lists q with
  | nil => rw [processJob_nil s q ca fa hq]
  | cons k rest =>
    rw [processJob_cons s q k rest ca fa hq]
    have hpop : retriesOf (popped s q rest) j = retriesOf s j := rfl
    by_cases hdep : (popped s q rest).deps k ≠ []
    · rw [handleDequeued_dep _ _ _ _ _ hdep]
      exact le_of_eq hpop.symm
    · have hdep' : (popped s q rest).deps k = [] := not_not.mp hdep
      by_cases hst : statusOf (popped s q rest) k = some Status.CANCELLED
      · rw [handleDequeued_precancelled _ _ _ _ _ hdep' hst]
        exact le_of_eq hpop.symm
      · rw [handleDequeued_run _ _ _ _ _ hdep' hst]
        cases hp : (loopFrom (hsetStatus (popped s q rest) k .PROCESSING) k 0 11 ca fa).2 with
        | completed =>
          rw [afterLoop_completed, retriesOf_completeJob, retriesOf_loopFrom,
            retriesOf_hsetStatus, hpop]
        | cancelled =>
          rw [afterLoop_cancelled, retriesOf_loopFrom, retriesOf_hsetStatus, hpop]
        | errored =>
          rw [afterLoop_errored, retriesOf_failHandler]
          by_cases hj : j = k
          · subst hj
            rw [if_pos rfl, retriesOf_loopFrom, retriesOf_hsetStatus, hpop]
            omega
          · rw [if_neg hj, retriesOf_loopFrom, retriesOf_hsetStatus, hpop]

lemma retriesOf_cancelJob (s : Store) (jid j : String) :
    retriesOf (cancelJob s jid).1 j = retriesOf s j := by
  unfold cancelJob
  cases hje : s.jobs jid with
  | none => rfl
  | some job =>
    dsimp only
    by_cases hps : job.status = Status.PENDING ∨ job.status = Status.PROCESSING
    · rw [if_pos hps]
      exact retriesOf_hsetStatus s jid .CANCELLED j
    · rw [if_neg hps]

lemma retriesOf_deleteJob_other (s : Store) (jid j : String) (h : j ≠ jid) :
    retriesOf (deleteJob s jid).1 j = retriesOf s j := by
  unfold deleteJob
  by_cases he : (s.jobs jid).isSome
  · rw [if_pos he]
    simp [retriesOf, recordOf, h]
  · rw [if_neg he]

lemma retriesOf_enqueueJob_other (s : Store) (jid ty d p : String) (dl : List String)
    (n : Nat) (j : String) (h : j ≠ jid) :
    retriesOf (enqueueJob s jid ty d p dl n).1 j = retriesOf s j := by
  simp only [enqueueJob, retriesOf, recordOf]
  rw [addDependencyEdges_jobs]
  simp [hmsetNewJob, h, enqueueAfterPush, lpush]

/-- Across every operation the system performs, the retry counter of a job `k`
never decreases (enqueue only ever creates a fresh record, and deletion of `k`
itself destroys the record rather than resetting a counter). -/
lemma retriesOf_applyOp_le (s : Store) (k : String) (op : SysOp)
    (henq : ∀ ty d p dl n, op ≠ .enqueue k ty d p dl n) (hdel : op ≠ .del k) :
    retriesOf s k ≤ retriesOf (applyOp s op) k := by
  cases op with
  | enqueue jid ty d p dl n =>
    have hj : k ≠ jid := fun h => henq ty d p dl n (by rw [h])
    exact le_of_eq (retriesOf_enqueueJob_other s jid ty d p dl n k hj).symm
  | work q ca fa => exact retriesOf_processJob_le s q ca fa k
  | cancel jid => exact le_of_eq (retriesOf_cancelJob s jid k).symm
  | del jid =>
    have hj : k ≠ jid := fun h => hdel (by rw [h])
    exact le_of_eq (retriesOf_deleteJob_other s jid k hj).symm

/-! ## The claims -/

/-- C1: when a worker dequeues a job whose depends-on set is non-empty, it never
sets the status to PROCESSING in that iteration; the job-id is re-appended to the
tail of the same lane and the job record (indeed every hash and set) is left
unchanged — so a job transitions to PROCESSING only with an empty depends-on set. -/
theorem deps_block_processing (s : Store) (q k : String) (rest : List String)
    (ca fa : Option Nat) (hq : s.lists q = k :: rest) (hdep : s.deps k ≠ []) :
    (processJob s q ca fa).jobs = s.jobs ∧
    (processJob s q ca fa).deps = s.deps ∧
    (processJob s q ca fa).dependents = s.dependents ∧
    (processJob s q ca fa).lists q = rest ++ [k] ∧
    (∀ l, l ≠ q → (processJob s q ca fa).lists l = s.lists l) := by
  rw [processJob_cons s q k rest ca fa hq,
    handleDequeued_dep _ _ _ _ _ (show (popped s q rest).deps k ≠ [] from hdep)]
  refine ⟨rfl, rfl, rfl, ?_, ?_⟩
  · rw [lists_lpush, if_pos rfl, lists_popped, if_pos rfl]
  · intro l hl
    rw [lists_lpush, if_neg hl, lists_popped, if_neg hl]

theorem deps_block_processing_witness :
    exBlocked.lists "normal_jobs" = ["job:a"] ∧ exBlocked.deps "job:a" ≠ [] ∧
    (processJob exBlocked "normal_jobs" none none).jobs = exBlocked.jobs :=
  ⟨by decide, by decide,
    (deps_block_processing exBlocked "normal_jobs" "job:a" [] none none
      (by decide) (by decide)).1⟩

/-- C3 counterexample: `enqueueJob` appends the job-id to the lane FIRST
(workerController.js:54) and only then writes the record (line 55), so the
intermediate state after the lane push holds the id in the lane while the Job
record is still absent — refuting "record write happens before lane append". -/
theorem enqueue_order_cex :
    (enqueueAfterPush emptyStore "job:a" "normal").lists "normal_jobs" = ["job:a"] ∧
    (enqueueAfterPush emptyStore "job:a" "normal").jobs "job:a" = none ∧
    enqueueJob emptyStore "job:a" "t" "d" "normal" [] 0 =
      (addDependencyEdges (hmsetNewJob (enqueueAfterPush emptyStore "job:a" "normal")
        "job:a" "t" "d" 0) "job:a" [], 201) :=
  ⟨by decide, by decide, rfl⟩

/-- C3 amended: for a fresh job-id, `enqueueJob` appends the id to the selected
lane before writing the Job record, so an intermediate state exists in which the
lane contains the id while the record is absent; the record is present once the
full enqueue finishes. -/
theorem enqueue_order_amended (s : Store) (jobId ty d p : String) (dl : List String)
    (n : Nat) (hfresh : s.jobs jobId = none) :
    jobId ∈ (enqueueAfterPush s jobId p).lists (laneFor p) ∧
    (enqueueAfterPush s jobId p).jobs jobId = none ∧
    ((enqueueJob s jobId ty d p dl n).1.jobs jobId).isSome := by
  refine ⟨?_, hfresh, ?_⟩
  · show jobId ∈ (lpush s (laneFor p) jobId).lists (laneFor p)
    rw [lists_lpush, if_pos rfl]
    simp
  · simp only [enqueueJob]
    rw [show (addDependencyEdges (hmsetNewJob (enqueueAfterPush s jobId p) jobId ty d n)
        jobId dl).jobs = (hmsetNewJob (enqueueAfterPush s jobId p) jobId ty d n).jobs
      from addDependencyEdges_jobs jobId dl _]
    simp [hmsetNewJob]

theorem enqueue_order_amended_witness :
    "job:a" ∈ (enqueueAfterPush emptyStore "job:a" "normal").lists (laneFor "normal") ∧
    (enqueueAfterPush emptyStore "job:a" "normal").jobs "job:a" = none ∧
    ((enqueueJob emptyStore "job:a" "t" "d" "normal" [] 0).1.jobs "job:a").isSome :=
  enqueue_order_amended emptyStore "job:a" "t" "d" "normal" [] 0 (by decide)

/-- C6: each autoscaler cycle with total depth `high + normal` scales up by
exactly `min(depth − 50, 10 − active)` when depth > 50 and active < 10, scales
down by exactly `min(active − 1, 10 − depth)` when depth < 10 and active > 1,
and otherwise does nothing; any issued request keeps the fleet inside [1, 10],
and depth 75 with 2 active workers yields a scale-up of 8. -/
theorem autoscaler_policy (high normal active : Nat) :
    (high + normal > 50 → active < 10 →
      monitorQueue high normal active =
        .scaleUp (min (high + normal - 50) (10 - active))) ∧
    (high + normal < 10 → active > 1 →
      monitorQueue high normal active =
        .scaleDown (min (active - 1) (10 - (high + normal)))) ∧
    (¬ (high + normal > 50 ∧ active < 10) → ¬ (high + normal < 10 ∧ active > 1) →
      monitorQueue high normal active = .noAction) ∧
    (∀ m, monitorQueue high normal active = .scaleUp m → 1 ≤ m ∧ active + m ≤ 10) ∧
    (∀ m, monitorQueue high normal active = .scaleDown m →
      1 ≤ m ∧ m ≤ active - 1 ∧ 1 ≤ active - m) ∧
    monitorQueue 50 25 2 = .scaleUp 8 := by
  simp only [monitorQueue, SCALE_UP_THRESHOLD, SCALE_DOWN_THRESHOLD, MIN_WORKERS, MAX_WORKERS]
  refine ⟨?_, ?_, ?_, ?_, ?_, by decide⟩
  · intro h1 h2
    rw [if_pos ⟨h1, h2⟩]
  · intro h1 h2
    rw [if_neg (by omega), if_pos ⟨h1, h2⟩]
  · intro h1 h2
    rw [if_neg h1, if_neg h2]
  · intro m hm
    by_cases h1 : high + normal > 50 ∧ active < 10
    · rw [if_pos h1] at hm
      have := ScaleAction.scaleUp.inj hm
      omega
    · rw [if_neg h1] at hm
      by_cases h2 : high + normal < 10 ∧ active > 1
      · rw [if_pos h2] at hm
        exact absurd hm (by simp)
      · rw [if_neg h2] at hm
        exact absurd hm (by simp)
  · intro m hm
    by_cases h1 : high + normal > 50 ∧ active < 10
    · rw [if_pos h1] at hm
      exact absurd hm (by simp)
    · rw [if_neg h1] at hm
      by_cases h2 : high + normal < 10 ∧ active > 1
      · rw [if_pos h2] at hm
        have := ScaleAction.scaleDown.inj hm
        omega
      · rw [if_neg h2] at hm
        exact absurd hm (by simp)

theorem autoscaler_policy_witness :
    monitorQueue 50 25 2 = .scaleUp (min (50 + 25 - 50) (10 - 2)) :=
  (autoscaler_policy 50 25 2).1 (by decide) (by decide)

/-- C7: a cancel request for an unknown id, or for a job whose status is neither
PENDING nor PROCESSING, is rejected (404 resp. 400) with the whole store left
unchanged; from PENDING or PROCESSING it succeeds (200) and sets exactly that
job's status to CANCELLED. -/
theorem cancel_policy (s : Store) (k : String) :
    (s.jobs k = none → cancelJob s k = (s, 404)) ∧
    (∀ job, s.jobs k = some job → job.status ≠ .PENDING → job.status ≠ .PROCESSING →
      cancelJob s k = (s, 400)) ∧
    (∀ job, s.jobs k = some job → (job.status = .PENDING ∨ job.status = .PROCESSING) →
      (cancelJob s k).2 = 200 ∧ statusOf (cancelJob s k).1 k = some .CANCELLED ∧
      (cancelJob s k).1.deps = s.deps ∧ (cancelJob s k).1.dependents = s.dependents ∧
      (cancelJob s k).1.lists = s.lists ∧
      (∀ j, j ≠ k → (cancelJob s k).1.jobs j = s.jobs j)) := by
  refine ⟨?_, ?_, ?_⟩
  · intro h
    unfold cancelJob
    rw [h]
  · intro job hje h1 h2
    unfold cancelJob
    rw [hje]
    dsimp only
    rw [if_neg (by rintro (h | h) <;> [exact h1 h; exact h2 h])]
  · intro job hje hps
    unfold cancelJob
    rw [hje]
    dsimp only
    rw [if_pos hps]
    exact ⟨rfl, by rw [statusOf_hsetStatus, if_pos rfl], rfl, rfl, rfl,
      fun j hj => jobs_hsetStatus_other s k _ j hj⟩

theorem cancel_policy_witness :
    (cancelJob exPending "job:a").2 = 200 ∧
    statusOf (cancelJob exPending "job:a").1 "job:a" = some .CANCELLED :=
  have h := (cancel_policy exPending "job:a").2.2
    { status := .PENDING, jobType := "t", data := "d", retries := 0, progress := 0,
      created_at := 0, result := none } (by decide) (Or.inl rfl)
  ⟨h.1, h.2.1⟩

/-- C9 counterexample: a submission whose dependency list repeats `job:b` is NOT
rejected — it returns the 201 success response and mutates the store, the
duplicate silently absorbed by the idempotent set-add. -/
theorem dup_dependency_cex :
    (enqueueJob emptyStore "job:a" "t" "d" "normal" ["job:b", "job:b"] 0).2 = 201 ∧
    (enqueueJob emptyStore "job:a" "t" "d" "normal" ["job:b", "job:b"] 0).1.deps "job:a"
      = ["job:b"] ∧
    (enqueueJob emptyStore "job:a" "t" "d" "normal" ["job:b", "job:b"] 0).1.jobs "job:a"
      ≠ none :=
  ⟨rfl, by decide, by decide⟩

/-- C9 amended: a submission with duplicate dependency entries is accepted like
any other (201); `SADD` is idempotent, so for a fresh job the registered
depends-on set is duplicate-free and holds exactly the listed ids — no
rejection and no double edge occur. -/
theorem dup_dependency_amended (s : Store) (jobId ty d p : String) (dl : List String)
    (n : Nat) (hfresh : s.deps jobId = []) :
    (enqueueJob s jobId ty d p dl n).2 = 201 ∧
    ((enqueueJob s jobId ty d p dl n).1.deps jobId).Nodup ∧
    (∀ x, x ∈ (enqueueJob s jobId ty d p dl n).1.deps jobId ↔ x ∈ dl) := by
  have hbase : (hmsetNewJob (enqueueAfterPush s jobId p) jobId ty d n).deps jobId
      = s.deps jobId := rfl
  refine ⟨rfl, ?_, ?_⟩
  · simp only [enqueueJob]
    apply addDependencyEdges_deps_nodup
    rw [hbase, hfresh]
    exact List.nodup_nil
  · intro x
    simp only [enqueueJob]
    rw [addDependencyEdges_deps_mem, hbase, hfresh]
    simp

theorem dup_dependency_amended_witness :
    (enqueueJob emptyStore "job:a" "t" "d" "normal" ["job:b", "job:b"] 0).2 = 201 ∧
    ((enqueueJob emptyStore "job:a" "t" "d" "normal" ["job:b", "job:b"] 0).1.deps
      "job:a").Nodup :=
  have h := dup_dependency_amended emptyStore "job:a" "t" "d" "normal"
    ["job:b", "job:b"] 0 (by decide)
  ⟨h.1, h.2.1⟩

/-- C10: deleting an existing job removes exactly the job record, its depends-on
set and its dependents set; lanes and dead-letter list are untouched and every
other job's record and edge sets are unchanged — in particular a reference to
the deleted id inside another job's depends-on set persists. -/
theorem delete_frame (s : Store) (k : String) (h : (s.jobs k).isSome) :
    (deleteJob s k).2 = 200 ∧
    (deleteJob s k).1.jobs k = none ∧
    (deleteJob s k).1.deps k = [] ∧
    (deleteJob s k).1.dependents k = [] ∧
    (deleteJob s k).1.lists = s.lists ∧
    (∀ j, j ≠ k → (deleteJob s k).1.jobs j = s.jobs j ∧
      (deleteJob s k).1.deps j = s.deps j ∧
      (deleteJob s k).1.dependents j = s.dependents j) ∧
    (∀ j, j ≠ k → k ∈ s.deps j → k ∈ (deleteJob s k).1.deps j) := by
  unfold deleteJob
  rw [if_pos h]
  refine ⟨rfl, by simp, by simp, by simp, rfl, ?_, ?_⟩
  · intro j hj
    exact ⟨by simp [hj], by simp [hj], by simp [hj]⟩
  · intro j hj hk
    simpa [hj] using hk

theorem delete_frame_witness :
    (deleteJob exPending "job:a").2 = 200 ∧ (deleteJob exPending "job:a").1.jobs "job:a" = none :=
  have h := delete_frame exPending "job:a" (by decide)
  ⟨h.1, h.2.1⟩

/-- C4: a job in PROCESSING whose loop observes an external cancellation at
increment `c` (re-checked before writing that increment) ends with status
CANCELLED — never COMPLETED or FAILED in that run — with no result attached, no
retry-count change, no requeue anywhere, and progress written only for the
increments strictly before `c`. -/
theorem cancel_mid_processing (s : Store) (q k : String) (rest : List String) (c : Nat)
    (hq : s.lists q = k :: rest) (hdep : s.deps k = [])
    (hst : ¬ statusOf s k = some .CANCELLED) (hc : c ≤ 10) :
    statusOf (processJob s q (some c) none) k = some .CANCELLED ∧
    ¬ statusOf (processJob s q (some c) none) k = some .COMPLETED ∧
    ¬ statusOf (processJob s q (some c) none) k = some .FAILED ∧
    resultOf (processJob s q (some c) none) k = resultOf s k ∧
    retriesOf (processJob s q (some c) none) k = retriesOf s k ∧
    (processJob s q (some c) none).lists q = rest ∧
    (∀ l, l ≠ q → (processJob s q (some c) none).lists l = s.lists l) ∧
    (c = 0 → progressOf (processJob s q (some c) none) k = progressOf s k) ∧
    (0 < c → progressOf (processJob s q (some c) none) k = 10 * (c - 1)) := by
  rw [processJob_cons s q k rest (some c) none hq,
    handleDequeued_run _ _ _ _ _ (show (popped s q rest).deps k = [] from hdep)
      (show ¬ statusOf (popped s q rest) k = some .CANCELLED from hst)]
  have hs1 : statusOf (hsetStatus (popped s q rest) k .PROCESSING) k = some .PROCESSING := by
    rw [statusOf_hsetStatus, if_pos rfl]
  obtain ⟨h1, h2, h3, h4, h5, h6, h7, h8, h9, h10⟩ :=
    loopFrom_cancel k 11 (hsetStatus (popped s q rest) k .PROCESSING) 0 c .PROCESSING
      hs1 (by decide) (Nat.zero_le c) (by omega)
  rw [h1, afterLoop_cancelled]
  refine ⟨h2, by rw [h2]; decide, by rw [h2]; decide, ?_, ?_, ?_, ?_, ?_, ?_⟩
  · rw [h7, resultOf_hsetStatus]
    exact rfl
  · rw [h6 k, retriesOf_hsetStatus]
    exact rfl
  · rw [h5, lists_hsetStatus, lists_popped, if_pos rfl]
  · intro l hl
    rw [h5, lists_hsetStatus, lists_popped, if_neg hl]
  · intro hc0
    rw [h9 hc0.symm, progressOf_hsetStatus]
    exact rfl
  · intro hc0
    exact h10 hc0

theorem cancel_mid_processing_witness :
    statusOf (processJob exPending "normal_jobs" (some 0) none) "job:a" = some .CANCELLED :=
  (cancel_mid_processing exPending "normal_jobs" "job:a" [] 0
    (by decide) (by decide) (by decide) (by decide)).1

/-- C5: a run that finishes its progress loop with no error and no observed
cancellation sets status COMPLETED with the result payload attached and removes
this job-id from the depends-on set of exactly its direct dependents (all other
depends-on sets untouched); runs that end in observed cancellation or in the
retry handler leave every depends-on set unchanged, so release happens exactly
on reaching COMPLETED. -/
theorem complete_releases_dependents (s : Store) (q k : String) (rest : List String)
    (hq : s.lists q = k :: rest) (hdep : s.deps k = [])
    (hst : ¬ statusOf s k = some .CANCELLED) :
    statusOf (processJob s q none none) k = some .COMPLETED ∧
    resultOf (processJob s q none none) k = some (successResult k) ∧
    (∀ d, d ∈ s.dependents k →
      (processJob s q none none).deps d = (s.deps d).filter (fun x => x ≠ k)) ∧
    (∀ j, j ∉ s.dependents k → (processJob s q none none).deps j = s.deps j) ∧
    (∀ c, c ≤ 10 → (processJob s q (some c) none).deps = s.deps) ∧
    (∀ f, f ≤ 10 → (processJob s q none (some f)).deps = s.deps) := by
  have hdepP : (popped s q rest).deps k = [] := hdep
  have hstP : ¬ statusOf (popped s q rest) k = some Status.CANCELLED := hst
  have hs1 : statusOf (hsetStatus (popped s q rest) k .PROCESSING) k = some .PROCESSING := by
    rw [statusOf_hsetStatus, if_pos rfl]
  obtain ⟨h1, h2, h3, h4, h5, h6, h7, h8⟩ :=
    loopFrom_run k 11 (hsetStatus (popped s q rest) k .PROCESSING) 0 .PROCESSING
      hs1 (by decide)
  refine ⟨?_, ?_, ?_, ?_, ?_, ?_⟩
  · rw [processJob_cons s q k rest none none hq, handleDequeued_run _ _ _ _ _ hdepP hstP,
      h1, afterLoop_completed, statusOf_completeJob, if_pos rfl]
  · rw [processJob_cons s q k rest none none hq, handleDequeued_run _ _ _ _ _ hdepP hstP,
      h1, afterLoop_completed, resultOf_completeJob_self]
  · intro d hd
    rw [processJob_cons s q k rest none none hq, handleDequeued_run _ _ _ _ _ hdepP hstP,
      h1, afterLoop_completed, deps_completeJob, h4, dependents_hsetStatus,
      dependents_popped, if_pos hd, h3, deps_hsetStatus, deps_popped]
  · intro j hj
    rw [processJob_cons s q k rest none none hq, handleDequeued_run _ _ _ _ _ hdepP hstP,
      h1, afterLoop_completed, deps_completeJob, h4, dependents_hsetStatus,
      dependents_popped, if_neg hj, h3, deps_hsetStatus, deps_popped]
  · intro c hc
    rw [processJob_cons s q k rest (some c) none hq, handleDequeued_run _ _ _ _ _ hdepP hstP]
    obtain ⟨h1, _, h3, _⟩ :=
      loopFrom_cancel k 11 (hsetStatus (popped s q rest) k .PROCESSING) 0 c .PROCESSING
        hs1 (by decide) (Nat.zero_le c) (by omega)
    rw [h1, afterLoop_cancelled, h3, deps_hsetStatus, deps_popped]
  · intro f hf
    rw [processJob_cons s q k rest none (some f) hq, handleDequeued_run _ _ _ _ _ hdepP hstP]
    obtain ⟨h1, _, h3, _⟩ :=
      loopFrom_fail k 11 (hsetStatus (popped s q rest) k .PROCESSING) 0 f .PROCESSING
        hs1 (by decide) (Nat.zero_le f) (by omega)
    rw [h1, afterLoop_errored, deps_failHandler, h3, deps_hsetStatus, deps_popped]

theorem complete_releases_dependents_witness :
    exChain.lists "normal_jobs" = ["job:b", "job:a"] ∧
    statusOf (processJob exChain "normal_jobs" none none) "job:b" = some .COMPLETED :=
  ⟨by decide,
    (complete_releases_dependents exChain "normal_jobs" "job:b" ["job:a"]
      (by decide) (by decide) (by decide)).1⟩

/-- C2: an execution failure increments the retry counter by exactly one; while
the incremented counter is below 3 the job is re-appended to the tail of its
original lane (dead-letter untouched, status still the last written value,
PROCESSING); the first time it reaches 3 the status becomes FAILED and the id is
appended to the dead-letter queue with no re-enqueue into any lane — and any
newly FAILED job is in the dead-letter queue; moreover no operation of the
system ever decreases the counter. -/
theorem retry_deadletter_policy (s : Store) (q k : String) (rest : List String) (f : Nat)
    (hq : s.lists q = k :: rest) (hdep : s.deps k = [])
    (hst : ¬ statusOf s k = some .CANCELLED) (hf : f ≤ 10)
    (hqd : q ≠ "dead_letter_queue") :
    retriesOf (processJob s q none (some f)) k = retriesOf s k + 1 ∧
    (retriesOf s k + 1 < 3 →
      (processJob s q none (some f)).lists q = rest ++ [k] ∧
      (processJob s q none (some f)).lists "dead_letter_queue"
        = s.lists "dead_letter_queue" ∧
      statusOf (processJob s q none (some f)) k = some .PROCESSING) ∧
    (3 ≤ retriesOf s k + 1 →
      statusOf (processJob s q none (some f)) k = some .FAILED ∧
      (processJob s q none (some f)).lists "dead_letter_queue"
        = s.lists "dead_letter_queue" ++ [k] ∧
      (∀ l, l ≠ "dead_letter_queue" →
        (processJob s q none (some f)).lists l = if l = q then rest else s.lists l)) ∧
    (∀ j, statusOf (processJob s q none (some f)) j = some .FAILED →
      statusOf s j = some .FAILED ∨
        j ∈ (processJob s q none (some f)).lists "dead_letter_queue") ∧
    (∀ (t : Store) (op : SysOp), (∀ ty d p dl n, op ≠ .enqueue k ty d p dl n) →
      op ≠ .del k → retriesOf t k ≤ retriesOf (applyOp t op) k) := by
  have hdepP : (popped s q rest).deps k = [] := hdep
  have hstP : ¬ statusOf (popped s q rest) k = some Status.CANCELLED := hst
  have hs1 : statusOf (hsetStatus (popped s q rest) k .PROCESSING) k = some .PROCESSING := by
    rw [statusOf_hsetStatus, if_pos rfl]
  obtain ⟨h1, h2, h3, h4, h5, h6, h7⟩ :=
    loopFrom_fail k 11 (hsetStatus (popped s q rest) k .PROCESSING) 0 f .PROCESSING
      hs1 (by decide) (Nat.zero_le f) (by omega)
  rw [processJob_cons s q k rest none (some f) hq, handleDequeued_run _ _ _ _ _ hdepP hstP,
    h1, afterLoop_errored]
  have hrk : retriesOf (loopFrom (hsetStatus (popped s q rest) k .PROCESSING)
      k 0 11 none (some f)).1 k = retriesOf s k := by
    rw [h6 k, retriesOf_hsetStatus]
    exact rfl
  refine ⟨?_, ?_, ?_, ?_, ?_⟩
  · rw [retriesOf_failHandler, if_pos rfl, hrk]
  · intro h3lt
    have h3lt' : retriesOf (loopFrom (hsetStatus (popped s q rest) k .PROCESSING)
        k 0 11 none (some f)).1 k + 1 < 3 := by rw [hrk]; exact h3lt
    refine ⟨?_, ?_, ?_⟩
    · rw [lists_failHandler_lt _ _ _ h3lt', if_pos rfl, h5, lists_hsetStatus, lists_popped,
        if_pos rfl]
    · rw [lists_failHandler_lt _ _ _ h3lt', if_neg (fun hEq => hqd hEq.symm), h5,
        lists_hsetStatus, lists_popped, if_neg (fun hEq => hqd hEq.symm)]
    · rw [statusOf_failHandler_self _ _ _ _ h2, if_neg (by omega :
        ¬ retriesOf (loopFrom (hsetStatus (popped s q rest) k .PROCESSING)
          k 0 11 none (some f)).1 k + 1 ≥ 3)]
  · intro h3ge
    have h3ge' : retriesOf (loopFrom (hsetStatus (popped s q rest) k .PROCESSING)
        k 0 11 none (some f)).1 k + 1 ≥ 3 := by rw [hrk]; omega
    refine ⟨?_, ?_, ?_⟩
    · rw [statusOf_failHandler_self _ _ _ _ h2, if_pos h3ge']
    · rw [lists_failHandler_ge _ _ _ h3ge', if_pos rfl, h5, lists_hsetStatus, lists_popped,
        if_neg (fun hEq => hqd hEq.symm)]
    · intro l hl
      rw [lists_failHandler_ge _ _ _ h3ge', if_neg hl, h5, lists_hsetStatus, lists_popped]
  · intro j hjF
    by_cases hj : j = k
    · subst hj
      by_cases h3c : retriesOf (loopFrom (hsetStatus (popped s q rest) j .PROCESSING)
          j 0 11 none (some f)).1 j + 1 ≥ 3
      · right
        rw [lists_failHandler_ge _ _ _ h3c, if_pos rfl]
        simp
      · rw [statusOf_failHandler_self _ _ _ _ h2, if_neg h3c] at hjF
        simp at hjF
    · left
      rw [statusOf_failHandler_other _ _ _ _ hj] at hjF
      have hstj : statusOf (loopFrom (hsetStatus (popped s q rest) k .PROCESSING)
          k 0 11 none (some f)).1 j = statusOf s j := by
        simp only [statusOf]
        rw [h7 j hj, jobs_hsetStatus_other _ _ _ _ hj]
        exact rfl
      rw [hstj] at hjF
      exact hjF
  · exact fun t op henq hdel => retriesOf_applyOp_le t k op henq hdel

theorem retry_deadletter_policy_witness :
    retriesOf (processJob exPending "normal_jobs" none (some 0)) "job:a"
      = retriesOf exPending "job:a" + 1 :=
  (retry_deadletter_policy exPending "normal_jobs" "job:a" [] 0
    (by decide) (by decide) (by decide) (by decide) (by decide)).1

/-- C8: lanes are FIFO — enqueue appends the new job-id to the tail of the lane
selected by priority (other lists untouched), the worker's blocking pop removes
the id at the head, and an id requeued for dependency-wait or for retry is
re-appended to the tail of the very lane it was popped from. -/
theorem fifo_lane_discipline (s : Store) (jobId ty d p q k : String) (dl : List String)
    (n : Nat) (rest : List String) :
    ((enqueueJob s jobId ty d p dl n).1.lists (laneFor p)
      = s.lists (laneFor p) ++ [jobId]) ∧
    (∀ l, l ≠ laneFor p → (enqueueJob s jobId ty d p dl n).1.lists l = s.lists l) ∧
    (∀ ca fa, s.lists q = k :: rest → s.deps k ≠ [] →
      (processJob s q ca fa).lists q = rest ++ [k]) ∧
    (∀ ca fa, s.lists q = k :: rest → s.deps k = [] → statusOf s k = some .CANCELLED →
      (processJob s q ca fa).lists q = rest) ∧
    (∀ f, s.lists q = k :: rest → s.deps k = [] → ¬ statusOf s k = some .CANCELLED →
      f ≤ 10 → q ≠ "dead_letter_queue" → retriesOf s k + 1 < 3 →
      (processJob s q none (some f)).lists q = rest ++ [k]) := by
  refine ⟨?_, ?_, ?_, ?_, ?_⟩
  · simp only [enqueueJob]
    rw [addDependencyEdges_lists]
    show (lpush s (laneFor p) jobId).lists (laneFor p) = _
    rw [lists_lpush, if_pos rfl]
  · intro l hl
    simp only [enqueueJob]
    rw [addDependencyEdges_lists]
    show (lpush s (laneFor p) jobId).lists l = _
    rw [lists_lpush, if_neg hl]
  · intro ca fa hq hdep
    rw [processJob_cons s q k rest ca fa hq,
      handleDequeued_dep _ _ _ _ _ (show (popped s q rest).deps k ≠ [] from hdep),
      lists_lpush, if_pos rfl, lists_popped, if_pos rfl]
  · intro ca fa hq hdep hstC
    rw [processJob_cons s q k rest ca fa hq,
      handleDequeued_precancelled _ _ _ _ _ (show (popped s q rest).deps k = [] from hdep)
        (show statusOf (popped s q rest) k = some .CANCELLED from hstC),
      lists_popped, if_pos rfl]
  · intro f hq hdep hst hf hqd hlt
    have hs1 : statusOf (hsetStatus (popped s q rest) k .PROCESSING) k = some .PROCESSING := by
      rw [statusOf_hsetStatus, if_pos rfl]
    obtain ⟨h1, _, _, _, h5, h6, _⟩ :=
      loopFrom_fail k 11 (hsetStatus (popped s q rest) k .PROCESSING) 0 f .PROCESSING
        hs1 (by decide) (Nat.zero_le f) (by omega)
    rw [processJob_cons s q k rest none (some f) hq,
      handleDequeued_run _ _ _ _ _ (show (popped s q rest).deps k = [] from hdep)
        (show ¬ statusOf (popped s q rest) k = some .CANCELLED from hst),
      h1, afterLoop_errored]
    have hlt' : retriesOf (loopFrom (hsetStatus (popped s q rest) k .PROCESSING)
        k 0 11 none (some f)).1 k + 1 < 3 := by
      rw [h6 k, retriesOf_hsetStatus]
      exact hlt
    rw [lists_failHandler_lt _ _ _ hlt', if_pos rfl, h5, lists_hsetStatus, lists_popped,
      if_pos rfl]

theorem fifo_lane_discipline_witness :
    (enqueueJob exBlocked "job:c" "t" "d" "high" [] 0).1.lists (laneFor "high")
      = exBlocked.lists (laneFor "high") ++ ["job:c"] ∧
    (processJob exBlocked "normal_jobs" none none).lists "normal_jobs" = [] ++ ["job:a"] :=
  have h := fifo_lane_discipline exBlocked "job:c" "t" "d" "high" "normal_jobs" "job:a" [] 0 []
  ⟨h.1, h.2.2.1 none none (by decide) (by decide)⟩

end JobQueue
